import Mathlib

/-!
Verification of the backup lifecycle and consistency engine of `backpy`.

The definitions below are a shallow embedding of the Python sources:
`backpy/core/space/backup_space.py`, `backpy/core/backup/backup.py`,
`backpy/core/backup/compression.py`, `backpy/core/remote.py` and
`backpy/core/space/file_backup_space.py`.  Filesystem state is made
explicit: a backup space is a list of persisted backup records, and the
operations transform that list exactly as the source code transforms the
on-disk files.
-/

namespace Backpy

/-- One persisted backup record of a space: the `<uuid>.toml` metadata file
together with the presence flags of its archive copies.
`configValid` is whether the metadata file parses (`TOMLConfiguration.is_valid`),
`hasLocal`/`hasRemote` mirror `Backup.has_local_archive`/`has_remote_archive`. -/
structure BackupRec where
  uid : Nat
  createdAt : Nat
  size : Nat
  locked : Bool
  configValid : Bool
  hasLocal : Bool
  hasRemote : Bool
deriving DecidableEq

/-- The auto-deletion rule strings matched in `BackupSpace.perform_auto_deletion`. -/
inductive DeletionRule
  | oldest
  | newest
  | largest
  | smallest
deriving DecidableEq

/-- The `sort_by` argument of `BackupSpace.get_backups`. -/
inductive SortKey
  | date
  | size
deriving DecidableEq

/-- A backup space: its list of persisted backup records (in directory order)
and the retention policy fields of `BackupSpace.__init__`. `maxBackups` and
`maxSize` use the source convention `-1 = unlimited`. -/
structure SpaceState where
  backups : List BackupRec
  maxBackups : Int
  maxSize : Int
  autoDeletion : Bool
  rule : DeletionRule
deriving DecidableEq

/-- Whether `Backup.load_by_uuid` succeeds for a record inside
`get_backups`: the metadata must parse, and when `check_hash` is set a
record with neither a local nor a remote archive raises `InvalidBackupError`
(hash mismatches only warn there, since `fail_invalid` keeps its default). -/
def loadOk (checkHash : Bool) (b : BackupRec) : Bool :=
  b.configValid && (!checkHash || b.hasLocal || b.hasRemote)

/-- Insertion step of the descending stable sort used to model Python's
`list.sort(key=..., reverse=True)`: a new element goes after every already
placed element whose key is at least as large. -/
def insertDesc (key : BackupRec → Nat) (x : BackupRec) : List BackupRec → List BackupRec
  | [] => [x]
  | y :: ys => if key x < key y then y :: insertDesc key x ys else x :: y :: ys

/-- Stable descending sort by a numeric key (model of
`list.sort(key=..., reverse=True)`). -/
def sortDesc (key : BackupRec → Nat) : List BackupRec → List BackupRec
  | [] => []
  | x :: xs => insertDesc key x (sortDesc key xs)

/-- `BackupSpace.get_backups(sort_by, check_hash, unlocked_only)`:
collect every record whose load succeeds (failures are skipped by the
`try/except: pass`), drop locked ones when `unlocked_only`, then sort
descending by creation date or by size when `sort_by` is given. -/
def getBackups (s : SpaceState) (sortBy : Option SortKey)
    (checkHash unlockedOnly : Bool) : List BackupRec :=
  let bs := s.backups.filter (loadOk checkHash)
  let bs := if unlockedOnly then bs.filter (fun b => !b.locked) else bs
  match sortBy with
  | none => bs
  | some SortKey.date => sortDesc (fun b => b.createdAt) bs
  | some SortKey.size => sortDesc (fun b => b.size) bs

/-- `BackupSpace.is_backup_limit_reached(post_creation)`:
`-1` means unlimited; otherwise compare the loaded backup count
(minus one if `post_creation`) against `max_backups`. -/
def isBackupLimitReached (s : SpaceState) (postCreation : Bool) : Bool :=
  if s.maxBackups = -1 then
    false
  else
    let offset : Int := if postCreation then 1 else 0
    decide (((getBackups s none true false).length : Int) - offset ≥ s.maxBackups)

/-- `BackupSpace.get_disk_usage`: sum of the file sizes of the loadable
backups (loaded with `check_hash=False`), clamped below by `0`. -/
def diskUsage (s : SpaceState) : Int :=
  max 0 (((getBackups s none false false).map (fun b => (b.size : Int))).sum)

/-- `BackupSpace.is_disk_limit_reached`: `-1` means unlimited; otherwise
compare the summed usage against `max_size`. -/
def isDiskLimitReached (s : SpaceState) : Bool :=
  if s.maxSize = -1 then
    false
  else
    decide (diskUsage s ≥ s.maxSize)

/-- Victim selection of one iteration of `perform_auto_deletion`:
`oldest` takes `get_backups(sort_by="date")[-1]`, `newest` index `0`,
`largest` takes `get_backups(sort_by="size")[0]`, `smallest` index `-1`;
all with `check_hash=False` and, notably, without `unlocked_only`. -/
def selectVictim (s : SpaceState) : Option BackupRec :=
  match s.rule with
  | DeletionRule.oldest => (getBackups s (some SortKey.date) false false).getLast?
  | DeletionRule.newest => (getBackups s (some SortKey.date) false false).head?
  | DeletionRule.largest => (getBackups s (some SortKey.size) false false).head?
  | DeletionRule.smallest => (getBackups s (some SortKey.size) false false).getLast?

/-- `Backup.delete` as seen by the owning space: the record with that uuid
(metadata file and archive) disappears from the space directory. -/
def deleteBackup (s : SpaceState) (uid : Nat) : SpaceState :=
  { s with backups := s.backups.filter (fun b => b.uid != uid) }

/-- Fueled unfolding of the `while` loop of `perform_auto_deletion`:
while backups remain and either limit is reached, delete the victim of the
configured rule.  Each iteration deletes one backup, so fuel equal to the
number of backups makes the fueled loop agree with the unbounded one. -/
def autoDeletionGo (s : SpaceState) : Nat → SpaceState
  | 0 => s
  | fuel + 1 =>
    if (getBackups s none true false).length > 0 &&
        (isBackupLimitReached s false || isDiskLimitReached s) then
      match selectVictim s with
      | some v => autoDeletionGo (deleteBackup s v.uid) fuel
      | none => s
    else s

/-- `BackupSpace.perform_auto_deletion()`. -/
def performAutoDeletion (s : SpaceState) : SpaceState :=
  autoDeletionGo s s.backups.length

/-- The two `MemoryError` cases raised by `Backup.new`. -/
inductive NewError
  | backupLimit
  | diskLimit
deriving DecidableEq

/-- The retention tail of `Backup.new` (after the archive was produced,
moved into the space directory and its metadata persisted): first the
backup-count check with `post_creation=True` — on overrun either run the
sweep (auto-deletion active) or unlink the fresh archive and metadata and
raise — then the disk-usage check, which on overrun always unlinks the
fresh artifacts and raises.  Returns the raised error (if any) and the
resulting persisted state of the space. -/
def backupNew (s : SpaceState) (b : BackupRec) : Option NewError × SpaceState :=
  let s1 : SpaceState := { s with backups := s.backups ++ [b] }
  if isBackupLimitReached s1 true then
    if s1.autoDeletion then
      let s2 := performAutoDeletion s1
      if isDiskLimitReached s2 then
        (some NewError.diskLimit, deleteBackup s2 b.uid)
      else
        (none, s2)
    else
      (some NewError.backupLimit, deleteBackup s1 b.uid)
  else
    if isDiskLimitReached s1 then
      (some NewError.diskLimit, deleteBackup s1 b.uid)
    else
      (none, s1)

/-- One entry of `_compression_methods` in `backpy/core/backup/compression.py`. -/
structure CompressionAlgorithm where
  name : String
  extension : String
  descr : String
  allowsCompressionLevel : Bool
  postTarAlgorithm : Option String
deriving DecidableEq

/-- The `_compression_methods` table, with the exact literal strings of the
source (descriptions shortened to drop punctuation, they carry no logic). -/
def compressionMethods : List CompressionAlgorithm :=
  [ ⟨"zip", ".zip", "ZIP File", true, none⟩,
    ⟨"gztar", ".tar.gz", "gzip tar-file", false, some "gz"⟩,
    ⟨"bztar", ".tar.bz2", "bzip2 tar-file", false, some "bz2"⟩,
    ⟨"xztar", "tar.xz", "xz tar-file", false, some "xz"⟩ ]

/-- `CompressionAlgorithm.from_name`: first table entry with that name. -/
def fromName (n : String) : Option CompressionAlgorithm :=
  compressionMethods.find? (fun a => a.name == n)

/-- The archive filename built by `Backup.load_by_uuid`
(`str(unique_id) + ...extension`) and by `compression._compress_tar`
(`archive_name + compression_algorithm.extension`). -/
def archiveFileName (uid : String) (alg : CompressionAlgorithm) : String :=
  uid ++ alg.extension

/-- The filesystem/remote situation of one backup as `Backup.load_by_uuid`,
`Backup.check_hash` and `FileBackupSpace.restore_backup` observe it.
`localHashOk` is whether the recomputed local digest equals the persisted
one, `remoteHashOk` likewise for the remote hash command, `downloadHashOk`
is the outcome of the integrity check of `Remote.download` during a remote
restore. -/
structure BackupFsState where
  configExists : Bool
  configValid : Bool
  hasLocal : Bool
  hasRemote : Bool
  localHashOk : Bool
  remoteHashOk : Bool
  isFullBackup : Bool
  downloadHashOk : Bool
deriving DecidableEq

/-- `Backup.check_hash(remote)`: with `remote=True` and a remote archive
present, compare the remote hash; otherwise fall back to the local archive
when present; with no archive at all return `False`. -/
def checkHashB (f : BackupFsState) (remote : Bool) : Bool :=
  if remote && f.hasRemote then f.remoteHashOk
  else if f.hasLocal then f.localHashOk
  else false

/-- The errors `Backup.load_by_uuid` can raise. -/
inductive LoadError
  | invalidBackup
  | invalidChecksum
deriving DecidableEq

/-- The `Backup` object returned by `load_by_uuid`: which copies it has and
whether a checksum warning was emitted while loading. -/
structure LoadedBackup where
  hasLocal : Bool
  hasRemote : Bool
  warned : Bool
deriving DecidableEq

/-- `Backup.load_by_uuid(backup_space, unique_id, check_hash, fail_invalid)`:
missing or unparsable metadata is `InvalidBackupError`; then, only when
`check_hash` is set: a record with no archive at all is `InvalidBackupError`,
and each present copy's digest is compared — a mismatch raises
`InvalidChecksumError` when `fail_invalid` else warns.  The remote copy is
checked before the local one, as in the source's `checks` list. -/
def loadByUuid (f : BackupFsState) (checkHash failInvalid : Bool) :
    Except LoadError LoadedBackup :=
  if !f.configExists then Except.error LoadError.invalidBackup
  else if !f.configValid then Except.error LoadError.invalidBackup
  else
    let lb : LoadedBackup := ⟨f.hasLocal, f.hasRemote, false⟩
    if checkHash then
      if !f.hasRemote && !f.hasLocal then Except.error LoadError.invalidBackup
      else
        if f.hasRemote && !(checkHashB f true) then
          if failInvalid then Except.error LoadError.invalidChecksum
          else
            if f.hasLocal && !(checkHashB f false) then
              if failInvalid then Except.error LoadError.invalidChecksum
              else Except.ok { lb with warned := true }
            else Except.ok { lb with warned := true }
        else
          if f.hasLocal && !(checkHashB f false) then
            if failInvalid then Except.error LoadError.invalidChecksum
            else Except.ok { lb with warned := true }
          else Except.ok lb
    else
      Except.ok lb

/-- How a remote transfer of `Remote.upload` / `Remote.download` ends:
normally, with a final mismatch warning, or with `InvalidChecksumError`. -/
inductive TransferOutcome
  | success
  | warnedMismatch
  | checksumError
deriving DecidableEq

/-- Trace summary of one transfer call: how many transfer attempts ran, how
many failed destination copies were removed between attempts, and the end. -/
structure TransferRun where
  attempts : Nat
  removedBetween : Nat
  outcome : TransferOutcome
deriving DecidableEq

/-- `Remote.upload(source, target, check_hash, retry_on_hash_missmatch,
max_retries)`: after the transfer, on digest mismatch with retries left,
remove the remote copy and recurse with `max_retries - 1`; with no retry
available only a warning is emitted.  `hashOk i` abstracts whether the
post-transfer comparison of attempt `i` succeeds. -/
def uploadRun (hashOk : Nat → Bool) (checkHash retryOn : Bool) :
    Nat → Nat → TransferRun
  | attempt, 0 =>
    if checkHash && !(hashOk attempt) then ⟨1, 0, TransferOutcome.warnedMismatch⟩
    else ⟨1, 0, TransferOutcome.success⟩
  | attempt, m + 1 =>
    if checkHash && !(hashOk attempt) then
      if retryOn then
        let r := uploadRun hashOk checkHash retryOn (attempt + 1) m
        ⟨r.attempts + 1, r.removedBetween + 1, r.outcome⟩
      else ⟨1, 0, TransferOutcome.warnedMismatch⟩
    else ⟨1, 0, TransferOutcome.success⟩

/-- `Remote.download(...)`: same retry scheme as `uploadRun` (the failed
local target copy is unlinked between attempts), but exhausting the retries
raises `InvalidChecksumError` instead of warning. -/
def downloadRun (hashOk : Nat → Bool) (checkHash retryOn : Bool) :
    Nat → Nat → TransferRun
  | attempt, 0 =>
    if checkHash && !(hashOk attempt) then ⟨1, 0, TransferOutcome.checksumError⟩
    else ⟨1, 0, TransferOutcome.success⟩
  | attempt, m + 1 =>
    if checkHash && !(hashOk attempt) then
      if retryOn then
        let r := downloadRun hashOk checkHash retryOn (attempt + 1) m
        ⟨r.attempts + 1, r.removedBetween + 1, r.outcome⟩
      else ⟨1, 0, TransferOutcome.checksumError⟩
    else ⟨1, 0, TransferOutcome.success⟩

/-- Modelled from the spec and the enum's usages in
`backpy/core/space/types.py` and the CLI (the enum's defining module is not
under `src/`): the restore conflict policies `OVERWRITE | CLEAN | REPLACE |
MERGE`. -/
inductive RestoreMode
  | overwrite
  | clean
  | replace
  | merge
deriving DecidableEq

/-- The `source` argument of `restore_backup` (`"local"` or `"remote"`). -/
inductive RestoreSource
  | localTier
  | remoteTier
deriving DecidableEq

/-- `source == "remote"`. -/
def tierRemote : RestoreSource → Bool
  | RestoreSource.localTier => false
  | RestoreSource.remoteTier => true

/-- Errors `FileBackupSpace.restore_backup` can raise. -/
inductive RestoreError
  | invalidBackup
  | invalidChecksum
deriving DecidableEq

/-- Modifications `restore_backup` applies to the restore target directory,
in order: wiping it (CLEAN of a full backup), deleting the filtered file
set (CLEAN of a filtered backup), extracting the archive over it. -/
inductive TargetEffect
  | wipeAll
  | deleteFiltered
  | extract
deriving DecidableEq

/-- Result of a `restore_backup` call: the raised error if any, the target
modifications performed before returning or raising, and whether a
corruption warning was emitted (`force`d restore of a bad digest). -/
structure RestoreResult where
  err : Option RestoreError
  effects : List TargetEffect
  warned : Bool
deriving DecidableEq

/-- `FileBackupSpace.restore_backup(unique_id, mode, source, force)`:
load the metadata (`check_hash=False`), require the requested tier's
archive to exist, re-verify the digest of that tier — on mismatch raise
`InvalidChecksumError` unless `force`, which warns instead — then apply the
CLEAN deletions, for a remote source download the archive (whose own
integrity failure again raises unless `force`), and extract. -/
def restoreBackup (f : BackupFsState) (mode : RestoreMode)
    (source : RestoreSource) (force : Bool) : RestoreResult :=
  if !f.configExists || !f.configValid then ⟨some RestoreError.invalidBackup, [], false⟩
  else
    let fromRemote := tierRemote source
    if fromRemote && !f.hasRemote then ⟨some RestoreError.invalidBackup, [], false⟩
    else if !fromRemote && !f.hasLocal then ⟨some RestoreError.invalidBackup, [], false⟩
    else if !(checkHashB f fromRemote) && !force then
      ⟨some RestoreError.invalidChecksum, [], false⟩
    else
      let warned1 := !(checkHashB f fromRemote)
      let effects1 : List TargetEffect :=
        if mode = RestoreMode.clean then
          if f.isFullBackup then [TargetEffect.wipeAll] else [TargetEffect.deleteFiltered]
        else []
      if fromRemote && !f.downloadHashOk && !force then
        ⟨some RestoreError.invalidChecksum, effects1, warned1⟩
      else
        let warned2 := warned1 || (fromRemote && !f.downloadHashOk)
        ⟨none, effects1 ++ [TargetEffect.extract], warned2⟩

/-! ### Helper lemmas about the descending sort -/

lemma length_insertDesc (key : BackupRec → Nat) (x : BackupRec) (l : List BackupRec) :
    (insertDesc key x l).length = l.length + 1 := by
  induction l with
  | nil => rfl
  | cons y ys ih =>
    by_cases h : key x < key y <;> simp [insertDesc, h, ih]

lemma mem_insertDesc (key : BackupRec → Nat) (x a : BackupRec) (l : List BackupRec) :
    a ∈ insertDesc key x l ↔ a = x ∨ a ∈ l := by
  induction l with
  | nil => simp [insertDesc]
  | cons y ys ih =>
    by_cases h : key x < key y
    · simp only [insertDesc, if_pos h, List.mem_cons, ih]
      tauto
    · simp only [insertDesc, if_neg h, List.mem_cons]

lemma sorted_insertDesc (key : BackupRec → Nat) (x : BackupRec) {l : List BackupRec}
    (hl : l.Pairwise (fun a b => key b ≤ key a)) :
    (insertDesc key x l).Pairwise (fun a b => key b ≤ key a) := by
  induction l with
  | nil => simp [insertDesc]
  | cons y ys ih =>
    rcases List.pairwise_cons.mp hl with ⟨hy, hys⟩
    by_cases h : key x < key y
    · simp only [insertDesc, if_pos h]
      refine List.pairwise_cons.mpr ⟨?_, ih hys⟩
      intro z hz
      rcases (mem_insertDesc key x z ys).mp hz with rfl | hz
      · exact le_of_lt h
      · exact hy z hz
    · simp only [insertDesc, if_neg h]
      refine List.pairwise_cons.mpr ⟨?_, hl⟩
      intro z hz
      rcases List.mem_cons.mp hz with rfl | hz
      · exact le_of_not_lt h
      · exact le_trans (hy z hz) (le_of_not_lt h)

lemma sorted_sortDesc (key : BackupRec → Nat) (l : List BackupRec) :
    (sortDesc key l).Pairwise (fun a b => key b ≤ key a) := by
  induction l with
  | nil => simp [sortDesc]
  | cons x xs ih => exact sorted_insertDesc key x ih

lemma insertDesc_all_lt (key : BackupRec → Nat) (x : BackupRec) {l : List BackupRec}
    (h : ∀ y ∈ l, key x < key y) : insertDesc key x l = l ++ [x] := by
  induction l with
  | nil => rfl
  | cons y ys ih =>
    have hy : key x < key y := h y (List.mem_cons_self y ys)
    simp only [insertDesc, if_pos hy, List.cons_append]
    rw [ih (fun z hz => h z (List.mem_cons_of_mem y hz))]

lemma sortDesc_of_pairwise_lt (key : BackupRec → Nat) {l : List BackupRec}
    (h : l.Pairwise (fun a b => key a < key b)) : sortDesc key l = l.reverse := by
  induction l with
  | nil => rfl
  | cons x xs ih =>
    rcases List.pairwise_cons.mp h with ⟨hx, hxs⟩
    simp only [sortDesc, ih hxs, List.reverse_cons]
    exact insertDesc_all_lt key x (fun y hy => hx y (List.mem_reverse.mp hy))

/-! ### Helper lemmas about `getBackups` -/

/-- A record with valid metadata and a local archive loads under any
`check_hash` value. -/
def CleanRec (b : BackupRec) : Prop := b.configValid = true ∧ b.hasLocal = true

instance (b : BackupRec) : Decidable (CleanRec b) := by
  unfold CleanRec
  infer_instance

lemma loadOk_of_clean {b : BackupRec} (h : CleanRec b) (ch : Bool) :
    loadOk ch b = true := by
  rcases h with ⟨h1, h2⟩
  simp [loadOk, h1, h2]

lemma getBackups_none_of_clean {s : SpaceState} (h : ∀ b ∈ s.backups, CleanRec b)
    (ch : Bool) : getBackups s none ch false = s.backups := by
  simp only [getBackups, if_neg Bool.false_ne_true]
  exact List.filter_eq_self.mpr (fun b hb => loadOk_of_clean (h b hb) ch)

lemma getBackups_date_of_clean {s : SpaceState} (h : ∀ b ∈ s.backups, CleanRec b)
    (ch : Bool) :
    getBackups s (some SortKey.date) ch false
      = sortDesc (fun b => b.createdAt) s.backups := by
  simp only [getBackups, if_neg Bool.false_ne_true]
  rw [List.filter_eq_self.mpr (fun b hb => loadOk_of_clean (h b hb) ch)]

lemma selectVictim_oldest {s : SpaceState} (hr : s.rule = DeletionRule.oldest)
    (h : ∀ b ∈ s.backups, CleanRec b)
    (hasc : s.backups.Pairwise (fun a b => a.createdAt < b.createdAt)) :
    selectVictim s = s.backups.head? := by
  simp only [selectVictim, hr, getBackups_date_of_clean h,
    sortDesc_of_pairwise_lt _ hasc]
  exact List.getLast?_reverse s.backups

lemma isDiskLimitReached_unlimited {s : SpaceState} (h : s.maxSize = -1) :
    isDiskLimitReached s = false := by
  simp [isDiskLimitReached, h]

lemma isBackupLimitReached_count {s : SpaceState} (n : Nat)
    (h : s.maxBackups = (n : Int)) :
    isBackupLimitReached s false
      = decide (n ≤ (getBackups s none true false).length) := by
  have hne : ¬ s.maxBackups = -1 := by omega
  simp only [isBackupLimitReached, if_neg hne, if_neg Bool.false_ne_true, h]
  exact decide_eq_decide.mpr (by omega)

lemma deleteBackup_head {s : SpaceState} {x : BackupRec} {xs : List BackupRec}
    (hbs : s.backups = x :: xs) (hnd : (s.backups.map BackupRec.uid).Nodup) :
    deleteBackup s x.uid = { s with backups := xs } := by
  have hx : x.uid ∉ xs.map BackupRec.uid := by
    rw [hbs] at hnd
    simp only [List.map_cons] at hnd
    exact (List.nodup_cons.mp hnd).1
  have hfil : (x :: xs).filter (fun b => b.uid != x.uid) = xs := by
    rw [List.filter_cons_of_neg (by simp)]
    exact List.filter_eq_self.mpr (fun y hy => by
      simp only [bne_iff_ne, ne_eq]
      intro he
      exact hx (he ▸ List.mem_map_of_mem BackupRec.uid hy))
  simp only [deleteBackup, hbs, hfil]

/-- The sweep of `perform_auto_deletion` with rule `oldest` and no disk
limit: repeatedly delete the oldest backup while the loaded count is at
least `max_backups`, i.e. keep the `max_backups - 1` newest records (all
records untouched when the limit was not reached). -/
lemma autoDeletionGo_oldest (n : Nat) (hn : 1 ≤ n) :
    ∀ (fuel : Nat) (s : SpaceState),
      s.rule = DeletionRule.oldest → s.maxSize = -1 → s.maxBackups = (n : Int) →
      (∀ b ∈ s.backups, CleanRec b) →
      s.backups.Pairwise (fun a b => a.createdAt < b.createdAt) →
      (s.backups.map BackupRec.uid).Nodup →
      s.backups.length ≤ fuel →
      autoDeletionGo s fuel
        = { s with backups := s.backups.drop (s.backups.length - (n - 1)) } := by
  intro fuel
  induction fuel with
  | zero =>
    intro s _ _ _ _ _ _ hf
    obtain ⟨bs, mb, ms, ad, r⟩ := s
    have h0 : bs = [] := List.eq_nil_of_length_eq_zero (Nat.le_zero.mp hf)
    subst h0
    simp [autoDeletionGo, List.drop_nil]
  | succ f ih =>
    rintro ⟨bs, mb, ms, ad, r⟩ hr hms hmb hclean hasc hnd hf
    dsimp only at hr hms hmb hclean hasc hnd hf ⊢
    subst hr hms hmb
    by_cases hlim : n ≤ bs.length
    · -- limit (still) reached: one victim is deleted and the loop recurses
      cases bs with
      | nil =>
        simp only [List.length_nil] at hlim
        omega
      | cons x xs =>
        simp only [List.length_cons] at hlim hf
        have hclean' : ∀ b ∈ xs, CleanRec b :=
          fun b hb => hclean b (List.mem_cons_of_mem x hb)
        have hasc' := (List.pairwise_cons.mp hasc).2
        have hnd' : (xs.map BackupRec.uid).Nodup := by
          simp only [List.map_cons] at hnd
          exact (List.nodup_cons.mp hnd).2
        have hguard :
            ((getBackups ⟨x :: xs, (n : Int), -1, ad, DeletionRule.oldest⟩
                none true false).length > 0 &&
              (isBackupLimitReached
                  ⟨x :: xs, (n : Int), -1, ad, DeletionRule.oldest⟩ false ||
                isDiskLimitReached
                  ⟨x :: xs, (n : Int), -1, ad, DeletionRule.oldest⟩)) = true := by
          rw [isBackupLimitReached_count n rfl, isDiskLimitReached_unlimited rfl,
            getBackups_none_of_clean hclean]
          dsimp only
          simp only [Bool.or_false, Bool.and_eq_true, decide_eq_true_eq,
            List.length_cons]
          exact ⟨by omega, by omega⟩
        have hvic : selectVictim
            ⟨x :: xs, (n : Int), -1, ad, DeletionRule.oldest⟩ = some x := by
          rw [selectVictim_oldest rfl hclean hasc]
          rfl
        have hdel : deleteBackup
            ⟨x :: xs, (n : Int), -1, ad, DeletionRule.oldest⟩ x.uid
            = ⟨xs, (n : Int), -1, ad, DeletionRule.oldest⟩ := by
          simpa using deleteBackup_head rfl hnd
        rw [autoDeletionGo, if_pos hguard, hvic]
        show autoDeletionGo
          (deleteBackup ⟨x :: xs, (n : Int), -1, ad, DeletionRule.oldest⟩ x.uid) f = _
        rw [hdel]
        have hrec := ih ⟨xs, (n : Int), -1, ad, DeletionRule.oldest⟩ rfl rfl rfl
          hclean' hasc' hnd' (by dsimp only; omega)
        rw [hrec]
        dsimp only
        rw [List.length_cons,
          show xs.length + 1 - (n - 1) = (xs.length - (n - 1)) + 1 from by omega,
          List.drop_succ_cons]
    · -- limit not reached: the guard is false and nothing is deleted
      have hlimb : isBackupLimitReached
          ⟨bs, (n : Int), -1, ad, DeletionRule.oldest⟩ false = false := by
        rw [isBackupLimitReached_count n rfl, getBackups_none_of_clean hclean]
        simpa using hlim
      have hguard : ((getBackups ⟨bs, (n : Int), -1, ad, DeletionRule.oldest⟩
            none true false).length > 0 &&
          (isBackupLimitReached
              ⟨bs, (n : Int), -1, ad, DeletionRule.oldest⟩ false ||
            isDiskLimitReached
              ⟨bs, (n : Int), -1, ad, DeletionRule.oldest⟩)) = false := by
        rw [hlimb, isDiskLimitReached_unlimited rfl]
        simp
      have hdrop : bs.length - (n - 1) = 0 := by omega
      rw [autoDeletionGo, if_neg (by simp [hguard]), hdrop, List.drop_zero]

lemma isBackupLimitReached_count_post {s : SpaceState} (n : Nat)
    (h : s.maxBackups = (n : Int)) :
    isBackupLimitReached s true
      = decide (n + 1 ≤ (getBackups s none true false).length) := by
  have hne : ¬ s.maxBackups = -1 := by omega
  unfold isBackupLimitReached
  rw [if_neg hne]
  show decide (((getBackups s none true false).length : Int) - 1 ≥ s.maxBackups) = _
  rw [h]
  exact decide_eq_decide.mpr (by omega)

lemma getBackups_none_eq (s : SpaceState) (ch : Bool) :
    getBackups s none ch false = s.backups.filter (loadOk ch) := by
  simp [getBackups]

/-! ### The claims -/

/-- C1: the claim says the automatic eviction sweep never deletes locked
backups and that, with only locked backups left at the limit, the
triggering creation fails with a capacity error leaving them untouched.
The code violates this: `perform_auto_deletion` selects its victims from
`get_backups` without `unlocked_only`, so on a space with `max_backups=1`,
auto-deletion on and a single locked backup, creating a second backup
deletes the locked backup (and the new one) and raises no error at all —
contradicting the CLI's own help text that a locked backup cannot be
deleted automatically. -/
theorem lockedBackupEvictedBySweep :
    (⟨1, 1, 5, true, true, true, false⟩ : BackupRec).locked = true ∧
    backupNew ⟨[⟨1, 1, 5, true, true, true, false⟩], 1, -1, true, DeletionRule.oldest⟩
        ⟨2, 2, 5, false, true, true, false⟩
      = (none, ⟨[], 1, -1, true, DeletionRule.oldest⟩) := by
  constructor
  · rfl
  · decide

/-- C2 (counterexample): with `max_backups = 2`, auto-deletion on andrule
`oldest`, creating backups A, B, C (creation dates 1, 2, 3) leaves only
`[C]` — not the `[C, B]` the claim demands — because the sweep deletes
while the count is still `≥ max_backups`. -/
theorem retentionScenarioLeavesOne :
    (getBackups
        (backupNew
          (backupNew
            (backupNew ⟨[], 2, -1, true, DeletionRule.oldest⟩
              ⟨1, 1, 1, false, true, true, false⟩).2
            ⟨2, 2, 1, false, true, true, false⟩).2
          ⟨3, 3, 1, false, true, true, false⟩).2
        (some SortKey.date) true false
      = [⟨3, 3, 1, false, true, true, false⟩]) ∧
    (getBackups
        (backupNew
          (backupNew
            (backupNew ⟨[], 2, -1, true, DeletionRule.oldest⟩
              ⟨1, 1, 1, false, true, true, false⟩).2
            ⟨2, 2, 1, false, true, true, false⟩).2
          ⟨3, 3, 1, false, true, true, false⟩).2
        (some SortKey.date) true false
      ≠ ([⟨3, 3, 1, false, true, true, false⟩,
          ⟨2, 2, 1, false, true, true, false⟩] : List BackupRec)) := by
  constructor
  · decide
  · decide

/-- C2 (amended): with `max_backups = N ≥ 1`, no disk limit, auto-deletion
on with rule `oldest` and no relevant load failures, a creation always
succeeds and keeps only the most-recently-created backups: when the space
already held at least `N` backups the sweep runs and exactly `N - 1`
newest remain (a suffix of the creation order), otherwise all backups
remain. -/
theorem retentionSweepKeepsNewest (s : SpaceState) (b : BackupRec) (n : Nat)
    (hr : s.rule = DeletionRule.oldest) (hms : s.maxSize = -1)
    (hmb : s.maxBackups = (n : Int)) (hn : 1 ≤ n) (had : s.autoDeletion = true)
    (hclean : ∀ x ∈ s.backups, CleanRec x) (hb : CleanRec b)
    (hasc : (s.backups ++ [b]).Pairwise (fun a c => a.createdAt < c.createdAt))
    (hnd : ((s.backups ++ [b]).map BackupRec.uid).Nodup) :
    (backupNew s b).1 = none ∧
      (backupNew s b).2.backups =
        if n ≤ s.backups.length then
          (s.backups ++ [b]).drop (s.backups.length + 2 - n)
        else s.backups ++ [b] := by
  obtain ⟨bs, mb, ms, ad, r⟩ := s
  dsimp only at hr hms hmb had hclean hasc hnd ⊢
  subst hr hms hmb had
  have hcleanAll : ∀ x ∈ bs ++ [b], CleanRec x := by
    intro x hx
    rcases List.mem_append.mp hx with h | h
    · exact hclean x h
    · rcases List.mem_singleton.mp h with rfl
      exact hb
  have hlen : (getBackups ⟨bs ++ [b], (n : Int), -1, true, DeletionRule.oldest⟩
      none true false).length = bs.length + 1 := by
    rw [getBackups_none_of_clean hcleanAll]
    simp
  by_cases hlim : n ≤ bs.length
  · have hpost : isBackupLimitReached
        ⟨bs ++ [b], (n : Int), -1, true, DeletionRule.oldest⟩ true = true := by
      rw [isBackupLimitReached_count_post n rfl, hlen]
      simp only [decide_eq_true_eq]
      omega
    have hsweep := autoDeletionGo_oldest n hn ((bs ++ [b]).length)
      ⟨bs ++ [b], (n : Int), -1, true, DeletionRule.oldest⟩ rfl rfl rfl
      hcleanAll hasc hnd (le_refl _)
    simp only [backupNew, performAutoDeletion, hpost, if_true]
    rw [hsweep, isDiskLimitReached_unlimited rfl]
    simp only [Bool.false_eq_true, if_false, if_pos hlim]
    refine ⟨trivial, ?_⟩
    show List.drop ((bs ++ [b]).length - (n - 1)) (bs ++ [b])
      = List.drop (bs.length + 2 - n) (bs ++ [b])
    congr 1
    rw [List.length_append]
    simp only [List.length_singleton]
    omega
  · have hpost : isBackupLimitReached
        ⟨bs ++ [b], (n : Int), -1, true, DeletionRule.oldest⟩ true = false := by
      rw [isBackupLimitReached_count_post n rfl, hlen]
      simp only [decide_eq_false_iff_not]
      omega
    simp only [backupNew, hpost, Bool.false_eq_true, if_false]
    rw [isDiskLimitReached_unlimited rfl]
    simp only [Bool.false_eq_true, if_false, if_neg hlim]
    exact ⟨trivial, trivial⟩


/-- C2 (witness): the amended theorem at `max_backups = 2` with existing
backups A, B and new backup C: creation succeeds and the sweep keeps
exactly one backup, C. -/
theorem retentionSweepKeepsNewestWitness :
    (backupNew ⟨[⟨1, 1, 1, false, true, true, false⟩,
        ⟨2, 2, 1, false, true, true, false⟩], 2, -1, true, DeletionRule.oldest⟩
      ⟨3, 3, 1, false, true, true, false⟩).1 = none ∧
    (backupNew ⟨[⟨1, 1, 1, false, true, true, false⟩,
        ⟨2, 2, 1, false, true, true, false⟩], 2, -1, true, DeletionRule.oldest⟩
      ⟨3, 3, 1, false, true, true, false⟩).2.backups
      = [⟨3, 3, 1, false, true, true, false⟩] := by
  have h := retentionSweepKeepsNewest
    ⟨[⟨1, 1, 1, false, true, true, false⟩,
      ⟨2, 2, 1, false, true, true, false⟩], 2, -1, true, DeletionRule.oldest⟩
    ⟨3, 3, 1, false, true, true, false⟩ 2
    rfl rfl rfl (by decide) rfl (by decide) (by decide) (by decide) (by decide)
  refine ⟨h.1, ?_⟩
  rw [h.2]
  decide

/-- C4: the claim says that whenever auto-deletion is active, `Backup.new`
evicts per the rule instead of raising, including when the exceeded limit
is the disk-usage limit.  The code violates this for the disk limit: with
`max_backups = -1`, `max_size = 10`, auto-deletion on, one 6-byte backup
and a new 6-byte backup, `Backup.new` raises the disk-usage `MemoryError`
and removes the fresh backup without ever evicting — contradicting the
CLI's own prompt that auto-deletion frees space when the space is out of
disk space. -/
theorem diskLimitNoAutoEviction :
    (⟨[⟨1, 1, 6, false, true, true, false⟩], -1, 10, true,
        DeletionRule.oldest⟩ : SpaceState).autoDeletion = true ∧
    backupNew ⟨[⟨1, 1, 6, false, true, true, false⟩], -1, 10, true,
        DeletionRule.oldest⟩ ⟨2, 2, 6, false, true, true, false⟩
      = (some NewError.diskLimit,
         ⟨[⟨1, 1, 6, false, true, true, false⟩], -1, 10, true,
          DeletionRule.oldest⟩) := by
  constructor
  · rfl
  · decide

/-- C6: with `max_backups` set (not `-1`) and auto-deletion off, a
`Backup.new` call that would exceed the limit raises the capacity
`MemoryError` and unlinks the just-created archive and metadata first, so
the persisted state of the space is exactly what it was before the call. -/
theorem hardLimitRollback (s : SpaceState) (b : BackupRec) (n : Nat)
    (hmb : s.maxBackups = (n : Int)) (had : s.autoDeletion = false)
    (hb : CleanRec b)
    (hcount : n ≤ (getBackups s none true false).length)
    (hfresh : ∀ y ∈ s.backups, y.uid ≠ b.uid) :
    backupNew s b = (some NewError.backupLimit, s) := by
  obtain ⟨bs, mb, ms, ad, r⟩ := s
  dsimp only at hmb had hcount hfresh ⊢
  subst hmb had
  have hlen : (getBackups ⟨bs ++ [b], (n : Int), ms, false, r⟩ none true false).length
      = (getBackups ⟨bs, (n : Int), ms, false, r⟩ none true false).length + 1 := by
    rw [getBackups_none_eq, getBackups_none_eq]
    dsimp only
    rw [List.filter_append]
    simp [loadOk_of_clean hb]
  have hpost : isBackupLimitReached ⟨bs ++ [b], (n : Int), ms, false, r⟩ true
      = true := by
    rw [isBackupLimitReached_count_post n rfl, hlen]
    rw [getBackups_none_eq] at hcount
    simp only [decide_eq_true_eq]
    rw [getBackups_none_eq]
    omega
  have hdel : deleteBackup ⟨bs ++ [b], (n : Int), ms, false, r⟩ b.uid
      = ⟨bs, (n : Int), ms, false, r⟩ := by
    simp only [deleteBackup]
    rw [List.filter_append]
    have h1 : bs.filter (fun y => y.uid != b.uid) = bs :=
      List.filter_eq_self.mpr (fun y hy => by
        simp only [bne_iff_ne, ne_eq]
        exact hfresh y hy)
    have h2 : ([b].filter (fun y => y.uid != b.uid)) = [] := by
      simp
    rw [h1, h2, List.append_nil]
  simp only [backupNew, hpost, if_true]
  simp only [Bool.false_eq_true, if_false]
  rw [hdel]

/-- C6 (witness): the rollback theorem at a space with `max_backups = 1`
holding one backup: creating a second raises the capacity error and the
persisted state is unchanged. -/
theorem hardLimitRollbackWitness :
    backupNew ⟨[⟨1, 1, 5, false, true, true, false⟩], 1, -1, false,
        DeletionRule.oldest⟩ ⟨2, 2, 5, false, true, true, false⟩
      = (some NewError.backupLimit,
         ⟨[⟨1, 1, 5, false, true, true, false⟩], 1, -1, false,
          DeletionRule.oldest⟩) :=
  hardLimitRollback
    ⟨[⟨1, 1, 5, false, true, true, false⟩], 1, -1, false, DeletionRule.oldest⟩
    ⟨2, 2, 5, false, true, true, false⟩ 1
    rfl rfl (by decide) (by decide) (by decide)

/-- C3 (counterexample): the claim says `load_by_uuid` raises
`InvalidBackupError` for a record with neither a local nor a remote
archive for every value of `check_hash`.  In the code the zero-copy check
sits inside `if check_hash:`, so with `check_hash=False` (and any
`fail_invalid`) the call returns a zero-copy `Backup` object instead of
raising. -/
theorem zeroCopyLoadOk :
    loadByUuid ⟨true, true, false, false, true, true, false, true⟩ false false
      = Except.ok ⟨false, false, false⟩ ∧
    loadByUuid ⟨true, true, false, false, true, true, false, true⟩ false true
      = Except.ok ⟨false, false, false⟩ := by
  exact ⟨rfl, rfl⟩

/-- C3 (amended): for a persisted record whose local and remote archives
are both absent, `load_by_uuid` raises `InvalidBackupError` exactly when
`check_hash=True` (for every `fail_invalid`); with `check_hash=False` it
returns a zero-copy `Backup` object. -/
theorem zeroCopyLoadAmended (f : BackupFsState) (fi : Bool)
    (hce : f.configExists = true) (hcv : f.configValid = true)
    (hl : f.hasLocal = false) (hr : f.hasRemote = false) :
    loadByUuid f true fi = Except.error LoadError.invalidBackup ∧
      loadByUuid f false fi = Except.ok ⟨false, false, false⟩ := by
  obtain ⟨ce, cv, l, r, lo, ro, fb, dl⟩ := f
  dsimp only at hce hcv hl hr
  subst hce hcv hl hr
  exact ⟨rfl, rfl⟩

/-- C3 (witness): the amended theorem at a concrete zero-copy record with
`fail_invalid=True`. -/
theorem zeroCopyLoadAmendedWitness :
    loadByUuid ⟨true, true, false, false, true, true, false, true⟩ true true
      = Except.error LoadError.invalidBackup ∧
    loadByUuid ⟨true, true, false, false, true, true, false, true⟩ false true
      = Except.ok ⟨false, false, false⟩ :=
  zeroCopyLoadAmended ⟨true, true, false, false, true, true, false, true⟩ true
    rfl rfl rfl rfl

/-- C5 (counterexample): the claim says exhausting the retries surfaces an
integrity error to the caller for uploads as well as downloads.  With the
default arguments (`check_hash=True`, `retry_on_hash_missmatch=True`,
`max_retries=3`) and every hash comparison failing, `Remote.upload` makes
4 attempts and ends with only a warning — no error — while only
`Remote.download` raises `InvalidChecksumError`. -/
theorem uploadMismatchOnlyWarns :
    uploadRun (fun _ => false) true true 0 3
      = ⟨4, 3, TransferOutcome.warnedMismatch⟩ ∧
    (uploadRun (fun _ => false) true true 0 3).outcome
      ≠ TransferOutcome.checksumError ∧
    downloadRun (fun _ => false) true true 0 3
      = ⟨4, 3, TransferOutcome.checksumError⟩ := by
  refine ⟨rfl, ?_, rfl⟩
  decide

/-- C5 (amended): a transfer whose hash comparisons keep failing is
retried up to the fixed `max_retries` bound with the failed destination
copy removed between attempts (the remote copy for uploads, the local
target for downloads), and never loops: at most `max_retries + 1`
attempts run.  Exhausting the retries raises `InvalidChecksumError` for
downloads, but for uploads only emits a warning and returns normally. -/
theorem transferRetryBounded :
    (∀ (h : Nat → Bool) (ch rt : Bool) (a m : Nat),
      (uploadRun h ch rt a m).attempts ≤ m + 1 ∧
      (downloadRun h ch rt a m).attempts ≤ m + 1) ∧
    (∀ (h : Nat → Bool), (∀ i, h i = false) → ∀ (a m : Nat),
      uploadRun h true true a m = ⟨m + 1, m, TransferOutcome.warnedMismatch⟩ ∧
      downloadRun h true true a m = ⟨m + 1, m, TransferOutcome.checksumError⟩) := by
  constructor
  · intro h ch rt a m
    induction m generalizing a with
    | zero =>
      refine ⟨?_, ?_⟩
      · unfold uploadRun
        split <;> simp
      · unfold downloadRun
        split <;> simp
    | succ m ih =>
      constructor
      · show (uploadRun h ch rt a (m + 1)).attempts ≤ m + 1 + 1
        unfold uploadRun
        split
        · split
          · have := (ih (a + 1)).1
            simp only []
            omega
          · simp
        · simp
      · show (downloadRun h ch rt a (m + 1)).attempts ≤ m + 1 + 1
        unfold downloadRun
        split
        · split
          · have := (ih (a + 1)).2
            simp only []
            omega
          · simp
        · simp
  · intro h hall a m
    induction m generalizing a with
    | zero =>
      refine ⟨?_, ?_⟩
      · unfold uploadRun
        simp [hall a]
      · unfold downloadRun
        simp [hall a]
    | succ m ih =>
      constructor
      · show uploadRun h true true a (m + 1) = _
        unfold uploadRun
        simp only [hall a, Bool.not_false, Bool.and_true, if_true]
        rw [(ih (a + 1)).1]
      · show downloadRun h true true a (m + 1) = _
        unfold downloadRun
        simp only [hall a, Bool.not_false, Bool.and_true, if_true]
        rw [(ih (a + 1)).2]

/-- C5 (witness): the amended theorem at the default bound `max_retries=3`
with an always-failing hash comparison. -/
theorem transferRetryBoundedWitness :
    (uploadRun (fun _ => false) true true 0 3).attempts ≤ 4 ∧
    uploadRun (fun _ => false) true true 0 3
      = ⟨4, 3, TransferOutcome.warnedMismatch⟩ ∧
    downloadRun (fun _ => false) true true 0 3
      = ⟨4, 3, TransferOutcome.checksumError⟩ :=
  ⟨(transferRetryBounded.1 (fun _ => false) true true 0 3).1,
   (transferRetryBounded.2 (fun _ => false) (fun _ => rfl) 0 3).1,
   (transferRetryBounded.2 (fun _ => false) (fun _ => rfl) 0 3).2⟩

/-- C7: `restore_backup` re-verifies the requested tier's digest before
touching the target: when the digest check fails and `force=False` the
call raises `InvalidChecksumError` with no target modification at all,
and when `force=True` it proceeds (warning recorded, archive extracted). -/
theorem restoreHashGate (f : BackupFsState) (mode : RestoreMode)
    (src : RestoreSource)
    (hce : f.configExists = true) (hcv : f.configValid = true)
    (hrem : tierRemote src = true → f.hasRemote = true)
    (hloc : tierRemote src = false → f.hasLocal = true)
    (hbad : checkHashB f (tierRemote src) = false) :
    restoreBackup f mode src false
      = ⟨some RestoreError.invalidChecksum, [], false⟩ ∧
      ((restoreBackup f mode src true).err = none ∧
       (restoreBackup f mode src true).warned = true ∧
       TargetEffect.extract ∈ (restoreBackup f mode src true).effects) := by
  cases src with
  | localTier =>
    have hl : f.hasLocal = true := hloc rfl
    simp only [tierRemote] at hbad
    constructor
    · simp [restoreBackup, hce, hcv, hl, hbad, tierRemote]
    · refine ⟨?_, ?_, ?_⟩ <;>
        simp [restoreBackup, hce, hcv, hl, hbad, tierRemote]
  | remoteTier =>
    have hr : f.hasRemote = true := hrem rfl
    simp only [tierRemote] at hbad
    constructor
    · simp [restoreBackup, hce, hcv, hr, hbad, tierRemote]
    · refine ⟨?_, ?_, ?_⟩ <;>
        simp [restoreBackup, hce, hcv, hr, hbad, tierRemote]

/-- C7 (witness): the gate theorem at a local-tier restore of a backup
whose recomputed local digest mismatches the persisted one. -/
theorem restoreHashGateWitness :
    restoreBackup ⟨true, true, true, false, false, true, true, true⟩
        RestoreMode.clean RestoreSource.localTier false
      = ⟨some RestoreError.invalidChecksum, [], false⟩ ∧
      ((restoreBackup ⟨true, true, true, false, false, true, true, true⟩
          RestoreMode.clean RestoreSource.localTier true).err = none ∧
       (restoreBackup ⟨true, true, true, false, false, true, true, true⟩
          RestoreMode.clean RestoreSource.localTier true).warned = true ∧
       TargetEffect.extract ∈ (restoreBackup
          ⟨true, true, true, false, false, true, true, true⟩
          RestoreMode.clean RestoreSource.localTier true).effects) :=
  restoreHashGate ⟨true, true, true, false, false, true, true, true⟩
    RestoreMode.clean RestoreSource.localTier rfl rfl
    (fun h => by cases h) (fun _ => rfl) rfl

/-- C8: `get_backups` returns every loadable backup and silently skips a
record whose metadata does not parse — one corrupt record among clean
ones never surfaces as an error and the list has exactly the length of
the clean part — and with `sort_by` given the result is descending:
newest first for `date`, largest first for `size`. -/
theorem getBackupsResilientSorted :
    (∀ (pre post : List BackupRec) (bad : BackupRec) (mb ms : Int)
        (ad : Bool) (r : DeletionRule) (ch : Bool),
      bad.configValid = false →
      (∀ x ∈ pre, CleanRec x) → (∀ x ∈ post, CleanRec x) →
      (getBackups ⟨pre ++ bad :: post, mb, ms, ad, r⟩ none ch false).length
        = pre.length + post.length) ∧
    (∀ (s : SpaceState) (ch : Bool),
      (getBackups s (some SortKey.date) ch false).Pairwise
        (fun a b => b.createdAt ≤ a.createdAt) ∧
      (getBackups s (some SortKey.size) ch false).Pairwise
        (fun a b => b.size ≤ a.size)) := by
  constructor
  · intro pre post bad mb ms ad r ch hbad hpre hpost
    rw [getBackups_none_eq]
    dsimp only
    rw [List.filter_append, List.filter_cons]
    have hb : loadOk ch bad = false := by
      simp [loadOk, hbad]
    rw [List.filter_eq_self.mpr (fun x hx => loadOk_of_clean (hpre x hx) ch),
      List.filter_eq_self.mpr (fun x hx => loadOk_of_clean (hpost x hx) ch)]
    simp [hb]
  · intro s ch
    constructor
    · exact sorted_sortDesc (fun b => b.createdAt) _
    · exact sorted_sortDesc (fun b => b.size) _

/-- C8 (witness): the theorem at a directory with one corrupt record
between two clean ones, and the sortedness parts at that same space. -/
theorem getBackupsResilientSortedWitness :
    (getBackups ⟨[⟨1, 5, 9, false, true, true, false⟩] ++
        ⟨2, 9, 1, false, false, true, false⟩ ::
        [⟨3, 7, 4, false, true, true, false⟩], -1, -1, false,
        DeletionRule.oldest⟩ none true false).length = 1 + 1 ∧
    (getBackups ⟨[⟨1, 5, 9, false, true, true, false⟩,
        ⟨2, 9, 1, false, false, true, false⟩,
        ⟨3, 7, 4, false, true, true, false⟩], -1, -1, false,
        DeletionRule.oldest⟩ (some SortKey.date) true false).Pairwise
      (fun a b => b.createdAt ≤ a.createdAt) :=
  ⟨getBackupsResilientSorted.1 [⟨1, 5, 9, false, true, true, false⟩]
      [⟨3, 7, 4, false, true, true, false⟩] ⟨2, 9, 1, false, false, true, false⟩
      (-1) (-1) false DeletionRule.oldest true rfl (by decide) (by decide),
   (getBackupsResilientSorted.2 ⟨[⟨1, 5, 9, false, true, true, false⟩,
      ⟨2, 9, 1, false, false, true, false⟩,
      ⟨3, 7, 4, false, true, true, false⟩], -1, -1, false,
      DeletionRule.oldest⟩ true).1⟩

/-- C9: the claim says every archive is named `<uuid>.<ext>` with a dot
before the extension, and for the xz algorithm ends in `.tar.xz`.  In the
`_compression_methods` table the `xztar` entry's extension constant is
`"tar.xz"` — missing the leading dot that `.zip`, `.tar.gz` and
`.tar.bz2` have — so an xz backup's archive is named `<uuid>tar.xz`, not
`<uuid>.tar.xz`: a slip, since the spec and the three sibling entries all
carry the dot. -/
theorem xztarExtensionMissingDot :
    (fromName "zip").map CompressionAlgorithm.extension = some ".zip" ∧
    (fromName "gztar").map CompressionAlgorithm.extension = some ".tar.gz" ∧
    (fromName "bztar").map CompressionAlgorithm.extension = some ".tar.bz2" ∧
    (fromName "xztar").map CompressionAlgorithm.extension = some "tar.xz" ∧
    (fromName "xztar").map (archiveFileName "a") = some "atar.xz" ∧
    ("atar.xz" : String) ≠ "a.tar.xz" := by
  refine ⟨rfl, rfl, rfl, rfl, rfl, ?_⟩
  decide

/-- C10: `Backup.check_hash` is total over copy presence: with no archive
at all it returns `False` for either argument, and with `remote=True` but
no remote archive present it falls back to comparing the local archive's
recomputed digest against the persisted one. -/
theorem checkHashTotalFallback (f : BackupFsState) :
    ((f.hasLocal = false ∧ f.hasRemote = false) →
      checkHashB f true = false ∧ checkHashB f false = false) ∧
    ((f.hasRemote = false ∧ f.hasLocal = true) →
      checkHashB f true = f.localHashOk ∧ checkHashB f false = f.localHashOk) := by
  obtain ⟨ce, cv, l, r, lo, ro, fb, dl⟩ := f
  constructor
  · rintro ⟨h1, h2⟩
    dsimp only at h1 h2
    subst h1 h2
    exact ⟨rfl, rfl⟩
  · rintro ⟨h1, h2⟩
    dsimp only at h1 h2
    subst h1 h2
    exact ⟨rfl, rfl⟩

/-- C10 (witness): the totality theorem at a record with no archives and
at a record with only a (mismatching) local archive. -/
theorem checkHashTotalFallbackWitness :
    (checkHashB ⟨true, true, false, false, true, true, false, true⟩ true = false ∧
     checkHashB ⟨true, true, false, false, true, true, false, true⟩ false = false) ∧
    (checkHashB ⟨true, true, true, false, false, true, false, true⟩ true
        = (⟨true, true, true, false, false, true, false, true⟩
            : BackupFsState).localHashOk ∧
     checkHashB ⟨true, true, true, false, false, true, false, true⟩ false
        = (⟨true, true, true, false, false, true, false, true⟩
            : BackupFsState).localHashOk) :=
  ⟨(checkHashTotalFallback
      ⟨true, true, false, false, true, true, false, true⟩).1 ⟨rfl, rfl⟩,
   (checkHashTotalFallback
      ⟨true, true, true, false, false, true, false, true⟩).2 ⟨rfl, rfl⟩⟩

end Backpy
